import Mathlib

/-!
Verification of the HIP-820 authentication core of the repository: the
challenge-message framing (`build_hip820`), base-128 varint encoding
(`encode_varint` / `decode_varint`), hand-rolled protobuf signature map
(`build_signature_map`, `build_signature_map_protobuf`), and the end-to-end
credential assembly used by the `authenticate` flows.

Bytes are modelled as `List Nat`; every entry produced by the encoders is
shown to be below 256 where that matters.
-/

namespace HipAuth

/-- Model of Python `str(n).encode('ascii')` for a natural number: the ASCII
bytes of the decimal representation of `n`, most significant digit first. -/
def decDigits (n : Nat) : List Nat :=
  if n < 10 then [48 + n]
  else decDigits (n / 10) ++ [48 + n % 10]
termination_by n
decreasing_by exact Nat.div_lt_self (by omega) (by omega)

/-- The fixed 24-byte HIP-820 framing bytes, `b"\x19Hedera Signed Message:\n"`
from the source. -/
def hipHeader : List Nat :=
  [0x19, 72, 101, 100, 101, 114, 97, 32, 83, 105, 103, 110, 101, 100, 32,
   77, 101, 115, 115, 97, 103, 101, 58, 10]

/-- `build_hip820` from the source (`new_auth.py`, `order_lifecycle_3.py`,
`scripts/ex_deposit.py`): fixed byte header, then the ASCII decimal length of
the message, then a newline byte, then the message verbatim. -/
def build_hip820 (canonical_message_bytes : List Nat) : List Nat :=
  hipHeader ++ decDigits canonical_message_bytes.length ++ [10] ++ canonical_message_bytes

/-- `encode_varint` from the source: protobuf base-128 varint of a
nonnegative integer. -/
def encode_varint (value : Nat) : List Nat :=
  if value > 0x7f then ((value &&& 0x7f) ||| 0x80) :: encode_varint (value >>> 7)
  else [value &&& 0x7f]
termination_by value
decreasing_by
  rename_i h
  rw [Nat.shiftRight_eq_div_pow]
  exact Nat.div_lt_self (by omega) (by omega)

/-- The spec's description of the varint encoder, taken from its words:
"repeatedly emit the low 7 bits OR'd with 0x80 while more than 7 bits remain
unconsumed, then emit the final 7 bits with no continuation bit". -/
def specVarint (value : Nat) : List Nat :=
  if 128 ≤ value then (value % 128 + 128) :: specVarint (value / 128)
  else [value]
termination_by value
decreasing_by exact Nat.div_lt_self (by omega) (by omega)

/-- `encode_varint` as executed by Python on an arbitrary (possibly negative)
integer argument: `value > 0x7f` never holds for a negative value, so the
loop is skipped and the single byte `value & 0x7f` is returned; Python's `&`
on a negative integer masks the two's-complement bits, giving the
nonnegative residue `value mod 128`. -/
def pyEncodeVarint (value : Int) : List Nat :=
  if value > 0x7f then ((value % 128).toNat + 128) :: pyEncodeVarint (value / 128)
  else [(value % 128).toNat]
termination_by value.toNat
decreasing_by
  rename_i h
  omega

/-- The loop body of `decode_varint` from `scripts/ex_deposit.py`, recursing
over the bytes from the current position; returns the decoded value and how
many bytes were consumed. -/
def decodeVarintLoop : List Nat → Nat → Nat → Nat × Nat
  | [], _, value => (value, 0)
  | b :: rest, shift, value =>
    let value' := value ||| ((b &&& 0x7f) <<< shift)
    if b &&& 0x80 = 0 then (value', 1)
    else
      let r := decodeVarintLoop rest (shift + 7) value'
      (r.1, r.2 + 1)

/-- `decode_varint` from `scripts/ex_deposit.py`: reads a varint from `data`
starting at `pos`, returning the value and the position after it. -/
def decode_varint (data : List Nat) (pos : Nat) : Nat × Nat :=
  let r := decodeVarintLoop (data.drop pos) 0 0
  (r.1, pos + r.2)

/-- `build_signature_map` from the source (`order_lifecycle_3.py`,
`scripts/ex_deposit.py`): inner signature pair (field 1 public key, field 3
ed25519 signature), wrapped as field 1 of the outer `SignatureMap`. -/
def build_signature_map (pub_key : List Nat) (signature : List Nat) : List Nat :=
  let sig_pair :=
    [0x0a] ++ encode_varint pub_key.length ++ pub_key ++
    [0x1a] ++ encode_varint signature.length ++ signature
  [0x0a] ++ encode_varint sig_pair.length ++ sig_pair

/-- The signature-algorithm discriminant of `build_signature_map_protobuf`
(`key_type` in `new_auth.py`). -/
inductive KeyType where
  | ed25519
  | ecdsa_secp256k1
deriving DecidableEq

/-- `build_signature_map_protobuf` from `new_auth.py`: like
`build_signature_map` but the signature sub-field tag is `0x1a` (field 3) for
ed25519 and `0x32` (field 6) for ECDSA secp256k1. -/
def build_signature_map_protobuf (public_key_bytes signature_bytes : List Nat)
    (key_type : KeyType) : List Nat :=
  let sig_pair := [0x0a] ++ encode_varint public_key_bytes.length ++ public_key_bytes
  let sig_tag : List Nat := if key_type = KeyType.ed25519 then [0x1a] else [0x32]
  let sig_pair := sig_pair ++ sig_tag ++ encode_varint signature_bytes.length ++ signature_bytes
  [0x0a] ++ encode_varint sig_pair.length ++ sig_pair

/-- The standard base64 alphabet (as used by Python's `base64.b64encode`):
index 0–25 ↦ `A`–`Z`, 26–51 ↦ `a`–`z`, 52–61 ↦ `0`–`9`, 62 ↦ `+`, 63 ↦ `/`. -/
def b64Char (i : Nat) : Nat :=
  if i < 26 then 65 + i
  else if i < 52 then 97 + (i - 26)
  else if i < 62 then 48 + (i - 52)
  else if i = 62 then 43
  else 47

/-- Model of Python's `base64.b64encode` (standard alphabet, `=`-padded):
groups of three bytes become four alphabet characters; a final group of one
or two bytes is zero-filled and padded with one or two `=` (byte 61). -/
def b64encode : List Nat → List Nat
  | b1 :: b2 :: b3 :: rest =>
    b64Char (b1 / 4) :: b64Char (b1 % 4 * 16 + b2 / 16) ::
    b64Char (b2 % 16 * 4 + b3 / 64) :: b64Char (b3 % 64) :: b64encode rest
  | [b1, b2] => [b64Char (b1 / 4), b64Char (b1 % 4 * 16 + b2 / 16), b64Char (b2 % 16 * 4), 61]
  | [b1] => [b64Char (b1 / 4), b64Char (b1 % 4 * 16), 61, 61]
  | [] => []

/-- Inverse of the standard base64 alphabet: `none` on a byte outside it. -/
def b64CharInv (c : Nat) : Option Nat :=
  if 65 ≤ c ∧ c ≤ 90 then some (c - 65)
  else if 97 ≤ c ∧ c ≤ 122 then some (c - 97 + 26)
  else if 48 ≤ c ∧ c ≤ 57 then some (c - 48 + 52)
  else if c = 43 then some 62
  else if c = 47 then some 63
  else none

/-- Standard base64 decoding of a padded encoding: consumes four characters
at a time, honouring `=` padding (byte 61) in the final quartet; `none` on
anything malformed. -/
def b64decode : List Nat → Option (List Nat)
  | [] => some []
  | c1 :: c2 :: c3 :: c4 :: rest =>
    match b64CharInv c1, b64CharInv c2 with
    | some i1, some i2 =>
      if c3 = 61 ∧ c4 = 61 ∧ rest = [] then some [i1 * 4 + i2 / 16]
      else if c4 = 61 ∧ rest = [] then
        match b64CharInv c3 with
        | some i3 => some [i1 * 4 + i2 / 16, i2 % 16 * 16 + i3 / 4]
        | none => none
      else
        match b64CharInv c3, b64CharInv c4 with
        | some i3, some i4 =>
          (b64decode rest).map
            (fun tail => (i1 * 4 + i2 / 16) :: (i2 % 16 * 16 + i3 / 4) :: (i3 % 4 * 64 + i4) :: tail)
        | _, _ => none
    | _, _ => none
  | _ => none

/-- UTF-8 bytes of a string, as Python's `str.encode` produces them. -/
def utf8Bytes (s : String) : List Nat :=
  s.toUTF8.toList.map (fun b => b.toNat)

/-- An Ed25519 private key as the `authenticate` flows use it: an opaque
signing function (`private_key.sign`) together with the raw public-key bytes
derived from it (`private_key.public_key().public_bytes(Raw, Raw)`). -/
structure Ed25519Key where
  sign : List Nat → List Nat
  pubBytes : List Nat

/-- The credential construction inside `authenticate`
(`order_lifecycle_3.py` lines 546–560, `new_auth.py` lines 270–300), step by
step as the source performs it: UTF-8 encode the challenge message, wrap it
with `build_hip820`, sign the wrapped bytes, build the signature map over
the public key and signature, and standard-base64 encode the result. -/
def authCredential (key : Ed25519Key) (message : String) : List Nat :=
  let canonical_bytes := utf8Bytes message
  let hip820_bytes := build_hip820 canonical_bytes
  let signature := key.sign hip820_bytes
  let signature_map := build_signature_map key.pubBytes signature
  b64encode signature_map

/-- The spec's end-to-end contract, from its words: base64(
buildSignatureMap( publicKeyBytesOf(privateKey), sign(privateKey,
wrapMessage(utf8Bytes(challengeMessage))) ) ). -/
def buildAuthCredential (key : Ed25519Key) (challengeMessage : String) : List Nat :=
  b64encode (build_signature_map key.pubBytes (key.sign (build_hip820 (utf8Bytes challengeMessage))))

/-- The JSON body the `authenticate` flows POST to `/api/v1/auth/verify`. -/
structure VerifyRequestBody where
  challenge_id : String
  account_id : String
  message_signed_plain_text : String
  signature_map_base64 : List Nat
  sig_type : String

/-- Construction of the verify request body in `authenticate`
(`order_lifecycle_3.py` lines 546–560, `scripts/ex_deposit.py` lines
110–123): the plain-text field carries the challenge message itself, while
the signature map is built over the signature of the HIP-820-wrapped bytes. -/
def verifyRequestBody (key : Ed25519Key) (challengeId accountId message : String) :
    VerifyRequestBody :=
  let hip820_bytes := build_hip820 (utf8Bytes message)
  let signature := key.sign hip820_bytes
  let signature_map := build_signature_map key.pubBytes signature
  { challenge_id := challengeId
    account_id := accountId
    message_signed_plain_text := message
    signature_map_base64 := b64encode signature_map
    sig_type := "ed25519" }

/-- The error taxonomy of spec §7 for the core component. -/
inductive AuthError where
  | keyLoadError
  | encodingError
  | signingError
deriving DecidableEq

/-- The 16-byte PKCS#8 DER header preceding the 32-byte raw seed in the
source's hardcoded Ed25519 private key (`302e020100300506032b657004220420`). -/
def ed25519DerHeader : List Nat :=
  [0x30, 0x2e, 0x02, 0x01, 0x00, 0x30, 0x05, 0x06, 0x03, 0x2b, 0x65, 0x70,
   0x04, 0x22, 0x04, 0x20]

/-- A well-formed Ed25519 DER private key: the fixed 16-byte header followed
by exactly 32 seed bytes (48 bytes total, the shape of the source's
`PRIVATE_KEY_DER_HEX`). -/
def wellFormedDerKey (der : List Nat) : Prop :=
  der.length = 48 ∧ der.take 16 = ed25519DerHeader

instance (der : List Nat) : Decidable (wellFormedDerKey der) := by
  unfold wellFormedDerKey
  infer_instance

/-- Modelled from the spec: the DER parsing behind
`load_ed25519_private_key` is performed by the external `cryptography`
library (`serialization.load_der_private_key`), whose code is not under
src/. Per spec §4.1/§7, malformed private key material (wrong length or
format, including empty key material) fails with a `KeyLoadError`, and a
well-formed key loads to its 32-byte seed. -/
def load_der_private_key (der : List Nat) : Except AuthError (List Nat) :=
  if wellFormedDerKey der then Except.ok (der.drop 16)
  else Except.error AuthError.keyLoadError

/-- Modelled from the spec: signing with key material that failed to load
cannot proceed; the `KeyLoadError` from loading is what a signing attempt
over malformed (e.g. empty) key material surfaces. -/
def signWithDerKey (der : List Nat) (signRaw : List Nat → List Nat → List Nat)
    (message : List Nat) : Except AuthError (List Nat) :=
  match load_der_private_key der with
  | Except.error e => Except.error e
  | Except.ok seed => Except.ok (signRaw seed message)

/-- Reads one length-delimited protobuf field with the given tag byte from
the front of `l`, using the source's `decode_varint` loop for the length;
returns the field body and the remaining bytes. -/
def readField (tag : Nat) (l : List Nat) : Option (List Nat × List Nat) :=
  match l with
  | [] => none
  | t :: rest =>
    if t = tag then
      let r := decodeVarintLoop rest 0 0
      let afterLen := rest.drop r.2
      if r.1 ≤ afterLen.length then some (afterLen.take r.1, afterLen.drop r.1) else none
    else none

/-- Decoding a signature map as the claims describe: the outer
length-delimited field (tag `0x0a`), then inside it the public-key sub-field
(tag `0x0a`) and the ed25519 signature sub-field (tag `0x1a`), with nothing
left over. -/
def decodeSigMap (l : List Nat) : Option (List Nat × List Nat) :=
  match readField 0x0a l with
  | none => none
  | some (inner, rest1) =>
    if rest1 = [] then
      match readField 0x0a inner with
      | none => none
      | some (pub, rest2) =>
        match readField 0x1a rest2 with
        | none => none
        | some (sig, rest3) => if rest3 = [] then some (pub, sig) else none
    else none

/-! ### Bitwise helper lemmas -/

theorem land_127_eq_mod (x : Nat) : x &&& 127 = x % 128 := by
  have h := Nat.and_pow_two_sub_one_eq_mod x 7
  norm_num at h
  exact h

theorem lor_shift_add {a : Nat} (b s : Nat) (h : a < 2 ^ s) :
    a ||| (b <<< s) = b * 2 ^ s + a := by
  rw [Nat.shiftLeft_eq, Nat.or_comm, Nat.mul_comm]
  exact (Nat.mul_add_lt_is_or h b).symm

theorem land_128_eq_zero {a : Nat} (h : a < 128) : a &&& 128 = 0 := by
  have h7 : a.testBit 7 = false := by
    rw [Nat.testBit_to_div_mod]
    simp only [decide_eq_false_iff_not]
    norm_num
    omega
  have h2 := Nat.and_two_pow a 7
  rw [h7] at h2
  norm_num at h2
  exact h2

theorem land_128_add {a : Nat} (h : a < 128) : (a + 128) &&& 128 = 128 := by
  have h7 : (a + 128).testBit 7 = true := by
    rw [Nat.testBit_to_div_mod]
    simp only [decide_eq_true_eq]
    norm_num
    omega
  have h2 := Nat.and_two_pow (a + 128) 7
  rw [h7] at h2
  norm_num at h2
  exact h2

theorem lor_128_eq_add {a : Nat} (h : a < 128) : a ||| 128 = a + 128 := by
  have h2 := lor_shift_add (a := a) 1 7 (by omega)
  have h3 : (1:Nat) <<< 7 = 128 := by decide
  rw [h3] at h2
  norm_num at h2
  omega

/-! ### Varint lemmas -/

theorem shiftRight_7_eq (v : Nat) : v >>> 7 = v / 128 := by
  rw [Nat.shiftRight_eq_div_pow]

theorem encode_varint_eq_specVarint (v : Nat) : encode_varint v = specVarint v := by
  induction v using Nat.strong_induction_on with
  | _ v ih =>
    rw [encode_varint, specVarint]
    by_cases h : v > 127
    · rw [if_pos h, if_pos (by omega)]
      have hhead : (v &&& 127) ||| 128 = v % 128 + 128 := by
        rw [land_127_eq_mod]
        exact lor_128_eq_add (by omega)
      rw [hhead, shiftRight_7_eq, ih (v / 128) (Nat.div_lt_self (by omega) (by omega))]
    · rw [if_neg h, if_neg (by omega), land_127_eq_mod, Nat.mod_eq_of_lt (by omega)]

theorem specVarint_byte_lt (v : Nat) : ∀ b ∈ specVarint v, b < 256 := by
  induction v using Nat.strong_induction_on with
  | _ v ih =>
    intro b hb
    rw [specVarint] at hb
    by_cases h : 128 ≤ v
    · rw [if_pos h] at hb
      rcases List.mem_cons.mp hb with h1 | h1
      · omega
      · exact ih (v / 128) (Nat.div_lt_self (by omega) (by omega)) b h1
    · rw [if_neg h] at hb
      simp at hb
      omega

theorem encode_varint_byte_lt (v : Nat) : ∀ b ∈ encode_varint v, b < 256 := by
  rw [encode_varint_eq_specVarint]
  exact specVarint_byte_lt v

theorem decodeVarintLoop_encode (v : Nat) :
    ∀ (rest : List Nat) (shift value : Nat), value < 2 ^ shift →
      decodeVarintLoop (encode_varint v ++ rest) shift value =
        (value + v * 2 ^ shift, (encode_varint v).length) := by
  induction v using Nat.strong_induction_on with
  | _ v ih =>
    intro rest shift value hval
    rw [encode_varint]
    by_cases h : v > 127
    · rw [if_pos h]
      rw [List.cons_append, decodeVarintLoop]
      have hor : (v &&& 127) ||| 128 = v % 128 + 128 := by
        rw [land_127_eq_mod]
        exact lor_128_eq_add (by omega)
      have hb7 : ((v &&& 127) ||| 128) &&& 127 = v % 128 := by
        rw [hor, land_127_eq_mod]
        omega
      have hb8 : ((v &&& 127) ||| 128) &&& 128 = 128 := by
        rw [hor]
        exact land_128_add (by omega)
      simp only [hb7, hb8]
      rw [if_neg (by omega)]
      have hpow : 2 ^ (shift + 7) = 2 ^ shift * 128 := by
        rw [Nat.pow_add]
      have hval' : value ||| (v % 128) <<< shift = value + v % 128 * 2 ^ shift := by
        rw [lor_shift_add (v % 128) shift hval]
        omega
      have hlt : v >>> 7 < v := by
        rw [shiftRight_7_eq]
        exact Nat.div_lt_self (by omega) (by norm_num)
      have hbound : value ||| (v % 128) <<< shift < 2 ^ (shift + 7) := by
        rw [hval', hpow]
        have h1 : v % 128 < 128 := by omega
        have h2 : (0:Nat) < 2 ^ shift := Nat.two_pow_pos shift
        nlinarith
      rw [ih (v >>> 7) hlt rest (shift + 7) _ hbound]
      rw [Prod.mk.injEq]
      refine ⟨?_, by simp⟩
      rw [hval', shiftRight_7_eq, hpow]
      have hv : v % 128 + 128 * (v / 128) = v := Nat.mod_add_div v 128
      calc value + v % 128 * 2 ^ shift + v / 128 * (2 ^ shift * 128)
          = value + (v % 128 + 128 * (v / 128)) * 2 ^ shift := by ring
        _ = value + v * 2 ^ shift := by rw [hv]
    · rw [if_neg h]
      rw [List.cons_append, decodeVarintLoop]
      have hb : v &&& 127 = v := by
        rw [land_127_eq_mod, Nat.mod_eq_of_lt (by omega)]
      have hb7 : (v &&& 127) &&& 127 = v := by
        rw [hb, hb]
      have hb8 : (v &&& 127) &&& 128 = 0 := by
        rw [hb]
        exact land_128_eq_zero (by omega)
      simp only [hb7, hb8, if_pos]
      rw [hb, lor_shift_add v shift hval]
      rw [Prod.mk.injEq]
      exact ⟨by ring, by simp⟩

theorem decodeVarintLoop_encode' (v : Nat) (rest : List Nat) :
    decodeVarintLoop (encode_varint v ++ rest) 0 0 = (v, (encode_varint v).length) := by
  have h := decodeVarintLoop_encode v rest 0 0 (by norm_num)
  simpa using h

theorem decode_varint_encode_varint (v : Nat) :
    decode_varint (encode_varint v) 0 = (v, (encode_varint v).length) := by
  have h := decodeVarintLoop_encode' v []
  rw [List.append_nil] at h
  rw [decode_varint, List.drop_zero, h]
  simp

/-! ### Signature-map decode round trip -/

theorem readField_encode (tag : Nat) (body rest : List Nat) :
    readField tag (tag :: (encode_varint body.length ++ (body ++ rest))) = some (body, rest) := by
  rw [readField]
  rw [if_pos rfl]
  simp only [decodeVarintLoop_encode']
  rw [List.drop_left]
  rw [if_pos (by simp)]
  rw [List.take_left' rfl, List.drop_left' rfl]

theorem readField_encode_nil (tag : Nat) (body : List Nat) :
    readField tag (tag :: (encode_varint body.length ++ body)) = some (body, []) := by
  have h := readField_encode tag body []
  rwa [List.append_nil] at h

theorem decodeSigMap_build (pub sig : List Nat) :
    decodeSigMap (build_signature_map pub sig) = some (pub, sig) := by
  rw [build_signature_map]
  generalize hsp : [0x0a] ++ encode_varint pub.length ++ pub ++
    [0x1a] ++ encode_varint sig.length ++ sig = sp
  have houter : [(0x0a : Nat)] ++ encode_varint sp.length ++ sp =
      (0x0a : Nat) :: (encode_varint sp.length ++ (sp ++ [])) := by
    simp
  rw [houter, decodeSigMap, readField_encode]
  simp only [if_pos rfl]
  have hsp2 : sp = (0x0a : Nat) :: (encode_varint pub.length ++
      (pub ++ ((0x1a : Nat) :: (encode_varint sig.length ++ (sig ++ []))))) := by
    rw [← hsp]
    simp
  rw [hsp2, readField_encode]
  simp [readField_encode_nil]

/-! ### Base64 lemmas -/

/-- Whether a byte is in the standard base64 alphabet (`A`–`Z`, `a`–`z`,
`0`–`9`, `+`, `/`); the URL-safe variants `-` (45) and `_` (95) are not. -/
def isB64Byte (c : Nat) : Bool :=
  if (65 ≤ c ∧ c ≤ 90) ∨ (97 ≤ c ∧ c ≤ 122) ∨ (48 ≤ c ∧ c ≤ 57) ∨ c = 43 ∨ c = 47
  then true else false

theorem isB64Byte_b64Char (i : Nat) : isB64Byte (b64Char i) = true := by
  rw [b64Char]
  split_ifs with h1 h2 h3 h4
  all_goals rw [isB64Byte, if_pos (by omega)]

theorem b64Char_ne_61 (i : Nat) : b64Char i ≠ 61 := by
  rw [b64Char]
  split_ifs with h1 h2 h3 h4
  all_goals omega

theorem b64CharInv_b64Char : ∀ i, i < 64 → b64CharInv (b64Char i) = some i := by
  decide

theorem b64encode_all_valid (bs : List Nat) :
    (b64encode bs).all (fun c => isB64Byte c || c == 61) = true := by
  induction bs using b64encode.induct with
  | case1 b1 b2 b3 rest ih =>
    rw [b64encode]
    simp [isB64Byte_b64Char, ih]
  | case2 b1 b2 =>
    rw [b64encode]
    simp [isB64Byte_b64Char]
  | case3 b1 =>
    rw [b64encode]
    simp [isB64Byte_b64Char]
  | case4 =>
    rw [b64encode]
    simp

theorem b64encode_length_mod_four (bs : List Nat) :
    (b64encode bs).length % 4 = 0 := by
  induction bs using b64encode.induct with
  | case1 b1 b2 b3 rest ih =>
    rw [b64encode]
    simp only [List.length_cons]
    omega
  | case2 b1 b2 =>
    rw [b64encode]
    simp
  | case3 b1 =>
    rw [b64encode]
    simp
  | case4 =>
    rw [b64encode]
    simp

theorem b64decode_b64encode (bs : List Nat) (h : ∀ b ∈ bs, b < 256) :
    b64decode (b64encode bs) = some bs := by
  induction bs using b64encode.induct with
  | case1 b1 b2 b3 rest ih =>
    have h1 : b1 < 256 := h b1 (by simp)
    have h2 : b2 < 256 := h b2 (by simp)
    have h3 : b3 < 256 := h b3 (by simp)
    have hrest : b64decode (b64encode rest) = some rest :=
      ih (fun b hb => h b (by simp [hb]))
    have j1 := b64CharInv_b64Char (b1 / 4) (by omega)
    have j2 := b64CharInv_b64Char (b1 % 4 * 16 + b2 / 16) (by omega)
    have j3 := b64CharInv_b64Char (b2 % 16 * 4 + b3 / 64) (by omega)
    have j4 := b64CharInv_b64Char (b3 % 64) (by omega)
    have e1 : b1 / 4 * 4 + (b1 % 4 * 16 + b2 / 16) / 16 = b1 := by omega
    have e2 : (b1 % 4 * 16 + b2 / 16) % 16 * 16 + (b2 % 16 * 4 + b3 / 64) / 4 = b2 := by omega
    have e3 : (b2 % 16 * 4 + b3 / 64) % 4 * 64 + b3 % 64 = b3 := by omega
    rw [b64encode, b64decode]
    simp [j1, j2, j3, j4, b64Char_ne_61, hrest, e1, e2, e3]
  | case2 b1 b2 =>
    have h1 : b1 < 256 := h b1 (by simp)
    have h2 : b2 < 256 := h b2 (by simp)
    have j1 := b64CharInv_b64Char (b1 / 4) (by omega)
    have j2 := b64CharInv_b64Char (b1 % 4 * 16 + b2 / 16) (by omega)
    have j3 := b64CharInv_b64Char (b2 % 16 * 4) (by omega)
    have e1 : b1 / 4 * 4 + (b1 % 4 * 16 + b2 / 16) / 16 = b1 := by omega
    have e2 : (b1 % 4 * 16 + b2 / 16) % 16 * 16 + b2 % 16 * 4 / 4 = b2 := by omega
    rw [b64encode, b64decode]
    simp [j1, j2, j3, b64Char_ne_61, e1, e2]
    omega
  | case3 b1 =>
    have h1 : b1 < 256 := h b1 (by simp)
    have j1 := b64CharInv_b64Char (b1 / 4) (by omega)
    have j2 := b64CharInv_b64Char (b1 % 4 * 16) (by omega)
    have e1 : b1 / 4 * 4 + b1 % 4 * 16 / 16 = b1 := by omega
    rw [b64encode, b64decode]
    simp [j1, j2, e1]
    omega
  | case4 =>
    rw [b64encode, b64decode]

/-! ### Decimal-digit lemmas -/

theorem decDigits_mem (n : Nat) : ∀ d ∈ decDigits n, 48 ≤ d ∧ d ≤ 57 := by
  induction n using Nat.strong_induction_on with
  | _ n ih =>
    intro d hd
    rw [decDigits] at hd
    by_cases h10 : n < 10
    · rw [if_pos h10] at hd
      simp at hd
      omega
    · rw [if_neg h10] at hd
      rcases List.mem_append.mp hd with h1 | h1
      · exact ih (n / 10) (Nat.div_lt_self (by omega) (by omega)) d h1
      · simp at h1
        omega

theorem decDigits_eq_digits : ∀ n : Nat, 0 < n →
    decDigits n = ((Nat.digits 10 n).map (fun d => 48 + d)).reverse := by
  intro n
  induction n using Nat.strong_induction_on with
  | _ n ih =>
    intro h
    rw [decDigits, Nat.digits_def' (by norm_num : (1:Nat) < 10) h]
    by_cases h10 : n < 10
    · rw [if_pos h10]
      have hz : n / 10 = 0 := by omega
      rw [hz]
      simp [Nat.mod_eq_of_lt h10]
    · rw [if_neg h10]
      simp only [List.map_cons, List.reverse_cons]
      rw [← ih (n / 10) (Nat.div_lt_self (by omega) (by omega)) (by omega)]

/-! ### Separator-splitting lemma for injectivity -/

theorem append_sep_inj {c : Nat} : ∀ (xs ys u v : List Nat), c ∉ xs → c ∉ ys →
    xs ++ c :: u = ys ++ c :: v → xs = ys ∧ u = v := by
  intro xs
  induction xs with
  | nil =>
    intro ys u v _ hy heq
    cases ys with
    | nil =>
      simp at heq
      exact ⟨rfl, heq⟩
    | cons y ys2 =>
      rw [List.nil_append, List.cons_append] at heq
      injection heq with h1 h2
      exact ((hy (by rw [h1]; exact List.mem_cons_self _ _)).elim)
  | cons x xs2 ih =>
    intro ys u v hx hy heq
    cases ys with
    | nil =>
      rw [List.cons_append, List.nil_append] at heq
      injection heq with h1 h2
      exact ((hx (by rw [← h1]; exact List.mem_cons_self _ _)).elim)
    | cons y ys2 =>
      rw [List.cons_append, List.cons_append] at heq
      injection heq with h1 h2
      have hx2 : c ∉ xs2 := fun hc => hx (List.mem_cons_of_mem _ hc)
      have hy2 : c ∉ ys2 := fun hc => hy (List.mem_cons_of_mem _ hc)
      obtain ⟨hxy, huv⟩ := ih ys2 u v hx2 hy2 h2
      exact ⟨by rw [h1, hxy], huv⟩

/-! ### Byte bounds for the signature map -/

theorem build_signature_map_byte_lt (pub sig : List Nat)
    (hp : ∀ b ∈ pub, b < 256) (hs : ∀ b ∈ sig, b < 256) :
    ∀ b ∈ build_signature_map pub sig, b < 256 := by
  intro b hb
  simp only [build_signature_map, List.append_assoc, List.mem_append,
    List.mem_singleton] at hb
  rcases hb with h | h | h | h | h | h | h | h
  · omega
  · exact encode_varint_byte_lt _ _ h
  · omega
  · exact encode_varint_byte_lt _ _ h
  · exact hp _ h
  · omega
  · exact encode_varint_byte_lt _ _ h
  · exact hs _ h

/-! ### Python integer semantics of encode_varint -/

theorem pyEncodeVarint_nonneg (v : Int) (h : 0 ≤ v) :
    pyEncodeVarint v = specVarint v.toNat := by
  generalize hn : v.toNat = n
  induction n using Nat.strong_induction_on generalizing v with
  | _ n ih =>
    rw [pyEncodeVarint, specVarint]
    by_cases h7 : v > 127
    · rw [if_pos h7, if_pos (by omega)]
      congr 1
      · omega
      · have hq : (v / 128).toNat = n / 128 := by omega
        rw [ih (n / 128) (by omega) (v / 128) (by omega) hq]
    · rw [if_neg h7, if_neg (by omega)]
      congr 1
      omega

/-! ### Claim theorems -/

/-- Claim C1: for every private key and challenge message, the end-to-end
credential builder returns base64(buildSignatureMap(publicKeyBytesOf(privateKey),
sign(privateKey, wrapMessage(utf8Bytes(challengeMessage))))), where the base64
encoding is standard (not URL-safe) with padding: every output byte is in the
standard alphabet or is the pad byte 61, and the output length is a multiple
of four. -/
theorem c1_end_to_end_credential (key : Ed25519Key) (message : String) :
    authCredential key message = buildAuthCredential key message ∧
    (authCredential key message).all (fun c => isB64Byte c || c == 61) = true ∧
    (authCredential key message).length % 4 = 0 :=
  ⟨rfl, b64encode_all_valid _, b64encode_length_mod_four _⟩

/-- Claim C2: for every byte string `m` (including the empty string),
`wrapMessage m` is the 24-byte ASCII prefix of `"\x19Hedera Signed Message:\n"`,
then the ASCII decimal representation of the byte length of `m`, then a single
newline byte, then `m` verbatim; in particular the empty message yields
`prefix ++ [48, 10]` (i.e. `"0\n"`). -/
theorem c2_wrapMessage_format (m : List Nat) :
    build_hip820 m = hipHeader ++ decDigits m.length ++ [10] ++ m ∧
    hipHeader = "\x19Hedera Signed Message:\n".data.map Char.toNat ∧
    hipHeader.length = 24 ∧
    decDigits m.length = (if m.length = 0 then [48]
      else ((Nat.digits 10 m.length).map (fun d => 48 + d)).reverse) ∧
    build_hip820 [] = hipHeader ++ [48, 10] := by
  refine ⟨rfl, by decide, by decide, ?_, ?_⟩
  · by_cases h : m.length = 0
    · rw [if_pos h, h]
      simp [decDigits]
    · rw [if_neg h]
      exact decDigits_eq_digits _ (by omega)
  · rw [build_hip820]
    simp [decDigits]

/-- Claim C3, counterexample: for the concrete 32-byte public key and 64-byte
signature of all zeros, the second byte of the signature map is `0x64` (100,
the inner signature-pair length `1+1+32+1+1+64`), not `0x66` (102) as the
claim states. -/
theorem c3_counterexample :
    (List.replicate 32 0).length = 32 ∧ (List.replicate 64 0).length = 64 ∧
    (build_signature_map (List.replicate 32 0) (List.replicate 64 0))[1]? = some 0x64 ∧
    ¬ (build_signature_map (List.replicate 32 0) (List.replicate 64 0))[1]? = some 0x66 := by
  have hb : (build_signature_map (List.replicate 32 0) (List.replicate 64 0))[1]? = some 100 := by
    simp [build_signature_map, encode_varint]
    decide
  exact ⟨by simp, by simp, hb, by rw [hb]; decide⟩

/-- Claim C3 as amended: for every `pub` of length 32 and `sig` of length 64,
`buildSignatureMap pub sig` yields a buffer whose first byte is `0x0a`, whose
second byte is the single-byte varint `0x64` (decimal 100, the inner buffer
length), and which round-trips: decoding the outer length-delimited field and
then the two inner length-delimited sub-fields recovers exactly `pub` and
`sig`. -/
theorem c3_signature_map_layout (pub sig : List Nat)
    (hp : pub.length = 32) (hs : sig.length = 64) :
    (build_signature_map pub sig)[0]? = some 0x0a ∧
    (build_signature_map pub sig)[1]? = some 0x64 ∧
    decodeSigMap (build_signature_map pub sig) = some (pub, sig) := by
  have e32 : encode_varint 32 = [32] := by
    simp [encode_varint]
    decide
  have e64 : encode_varint 64 = [64] := by
    simp [encode_varint]
    decide
  have e100 : encode_varint 100 = [100] := by
    simp [encode_varint]
    decide
  have hsp : ([(0x0a:Nat)] ++ encode_varint pub.length ++ pub ++
      [0x1a] ++ encode_varint sig.length ++ sig).length = 100 := by
    simp [hp, hs, e32, e64]
  refine ⟨?_, ?_, decodeSigMap_build pub sig⟩
  · rw [build_signature_map]
    simp
  · rw [build_signature_map]
    simp only [hsp, e100]
    simp

/-- Witness for the amended claim C3 at the all-zero key and signature. -/
theorem c3_signature_map_layout_witness :
    (build_signature_map (List.replicate 32 0) (List.replicate 64 0))[0]? = some 0x0a ∧
    (build_signature_map (List.replicate 32 0) (List.replicate 64 0))[1]? = some 0x64 ∧
    decodeSigMap (build_signature_map (List.replicate 32 0) (List.replicate 64 0)) =
      some (List.replicate 32 0, List.replicate 64 0) :=
  c3_signature_map_layout (List.replicate 32 0) (List.replicate 64 0) (by simp) (by simp)

/-- Claim C4: `encode_varint` implements standard base-128 varint encoding for
every unsigned integer up to 32-bit magnitude (the spec-side `specVarint`
emits the low 7 bits OR'd with 0x80 while more than 7 bits remain, then the
final 7 bits with no continuation bit), and the four documented vectors hold. -/
theorem c4_encode_varint_standard (v : Nat) (h : v < 2 ^ 32) :
    encode_varint v = specVarint v ∧
    encode_varint 0 = [0x00] ∧ encode_varint 127 = [0x7f] ∧
    encode_varint 128 = [0x80, 0x01] ∧ encode_varint 300 = [0xac, 0x02] := by
  refine ⟨encode_varint_eq_specVarint v, by simp [encode_varint], by simp [encode_varint], ?_, ?_⟩
  · simp [encode_varint]
    decide
  · simp [encode_varint]
    decide

/-- Witness for claim C4 at `v = 300`. -/
theorem c4_encode_varint_standard_witness :
    (300:Nat) < 2 ^ 32 ∧
    (encode_varint 300 = specVarint 300 ∧
     encode_varint 0 = [0x00] ∧ encode_varint 127 = [0x7f] ∧
     encode_varint 128 = [0x80, 0x01] ∧ encode_varint 300 = [0xac, 0x02]) :=
  ⟨by norm_num, c4_encode_varint_standard 300 (by norm_num)⟩

/-- Claim C5: the verification request body carries the original unwrapped
canonical message in `message_signed_plain_text`, while the signature inside
`signature_map_base64` is computed over the HIP-820-wrapped bytes of that same
message: decoding the base64 and the signature map recovers the public key and
exactly the signature of `build_hip820 (utf8Bytes message_signed_plain_text)`. -/
theorem c5_plain_text_vs_signature (key : Ed25519Key) (cid aid msg : String)
    (hpub : ∀ b ∈ key.pubBytes, b < 256)
    (hsig : ∀ m, ∀ b ∈ key.sign m, b < 256) :
    (verifyRequestBody key cid aid msg).message_signed_plain_text = msg ∧
    (b64decode (verifyRequestBody key cid aid msg).signature_map_base64).bind decodeSigMap =
      some (key.pubBytes, key.sign (build_hip820 (utf8Bytes
        (verifyRequestBody key cid aid msg).message_signed_plain_text))) := by
  refine ⟨rfl, ?_⟩
  have hbytes := build_signature_map_byte_lt key.pubBytes
    (key.sign (build_hip820 (utf8Bytes msg))) hpub (hsig _)
  show (b64decode (b64encode (build_signature_map key.pubBytes
      (key.sign (build_hip820 (utf8Bytes msg)))))).bind decodeSigMap =
    some (key.pubBytes, key.sign (build_hip820 (utf8Bytes msg)))
  rw [b64decode_b64encode _ hbytes]
  simp [decodeSigMap_build]

/-- Witness for claim C5 with a one-byte public key and constant signing
function. -/
theorem c5_plain_text_vs_signature_witness :
    (verifyRequestBody (Ed25519Key.mk (fun _ => [9]) [7]) "c" "a" "m").message_signed_plain_text = "m" ∧
    (b64decode (verifyRequestBody (Ed25519Key.mk (fun _ => [9]) [7]) "c" "a" "m").signature_map_base64).bind decodeSigMap =
      some ((Ed25519Key.mk (fun _ => [9]) [7]).pubBytes,
        (Ed25519Key.mk (fun _ => [9]) [7]).sign (build_hip820 (utf8Bytes
          (verifyRequestBody (Ed25519Key.mk (fun _ => [9]) [7]) "c" "a" "m").message_signed_plain_text))) :=
  c5_plain_text_vs_signature (Ed25519Key.mk (fun _ => [9]) [7]) "c" "a" "m"
    (by intro b hb; simp at hb; omega)
    (fun m => by intro b hb; simp at hb; omega)

/-- Claim C6: with the `ecdsa_secp256k1` discriminant,
`build_signature_map_protobuf` emits tag byte `0x32` (field 6) in place of
`0x1a` for the signature sub-field, with the public-key sub-field (tag `0x0a`)
and the outer wrapper (tag `0x0a` and the same inner length) unchanged; the
`ed25519` variant coincides with `build_signature_map`. -/
theorem c6_secp256k1_tag (pub sig : List Nat) :
    build_signature_map_protobuf pub sig KeyType.ed25519 = build_signature_map pub sig ∧
    build_signature_map pub sig =
      [0x0a] ++ encode_varint (2 + (encode_varint pub.length).length + pub.length +
        (encode_varint sig.length).length + sig.length) ++
      [0x0a] ++ encode_varint pub.length ++ pub ++ [0x1a] ++ encode_varint sig.length ++ sig ∧
    build_signature_map_protobuf pub sig KeyType.ecdsa_secp256k1 =
      [0x0a] ++ encode_varint (2 + (encode_varint pub.length).length + pub.length +
        (encode_varint sig.length).length + sig.length) ++
      [0x0a] ++ encode_varint pub.length ++ pub ++ [0x32] ++ encode_varint sig.length ++ sig := by
  have hlen1 : ([(0x0a:Nat)] ++ encode_varint pub.length ++ pub ++
      [0x1a] ++ encode_varint sig.length ++ sig).length =
      2 + (encode_varint pub.length).length + pub.length +
        (encode_varint sig.length).length + sig.length := by
    simp
    omega
  have hlen2 : ([(0x0a:Nat)] ++ encode_varint pub.length ++ pub ++
      [0x32] ++ encode_varint sig.length ++ sig).length =
      2 + (encode_varint pub.length).length + pub.length +
        (encode_varint sig.length).length + sig.length := by
    simp
    omega
  refine ⟨?_, ?_, ?_⟩
  · rw [build_signature_map_protobuf, build_signature_map]
    simp [List.append_assoc]
  · rw [build_signature_map]
    rw [hlen1]
    simp [List.append_assoc]
  · rw [build_signature_map_protobuf]
    simp only [if_neg (by decide : ¬ KeyType.ecdsa_secp256k1 = KeyType.ed25519)]
    rw [hlen2]
    simp [List.append_assoc]

/-- Claim C7, counterexample: `encode_varint` on the negative input `-1`
returns the byte string `b"\x7f"` under Python semantics instead of failing:
no `EncodingError` exists anywhere in the code. -/
theorem c7_counterexample : pyEncodeVarint (-1) = [0x7f] ∧ ([0x7f] : List Nat) ≠ [] := by
  constructor
  · simp [pyEncodeVarint]
  · decide

/-- Claim C7 as amended: the varint encoder and signature-map assembly never
fail; there is no `EncodingError` in the code. On a negative value the Python
`&` masks two's-complement bits, so `encode_varint` skips the loop and returns
the single byte `value mod 128`; on any nonnegative value (of any magnitude)
it returns the standard varint bytes. -/
theorem c7_no_encoding_error (v : Int) :
    (v < 0 → pyEncodeVarint v = [(v % 128).toNat]) ∧
    (0 ≤ v → pyEncodeVarint v = encode_varint v.toNat) := by
  constructor
  · intro hv
    rw [pyEncodeVarint, if_neg (by omega)]
  · intro hv
    rw [pyEncodeVarint_nonneg v hv, encode_varint_eq_specVarint]

/-- Witness for the amended claim C7 at `v = -1` and `v = 300`. -/
theorem c7_no_encoding_error_witness :
    ((-1 : Int) < 0 ∧ pyEncodeVarint (-1) = [((-1 : Int) % 128).toNat]) ∧
    ((0 : Int) ≤ 300 ∧ pyEncodeVarint 300 = encode_varint (300 : Int).toNat) :=
  ⟨⟨by norm_num, (c7_no_encoding_error (-1)).1 (by norm_num)⟩,
   ⟨by norm_num, (c7_no_encoding_error 300).2 (by norm_num)⟩⟩

/-- Claim C8: for every malformed private-key input (wrong length or format,
including empty key material), loading fails with a `KeyLoadError` and a
signing attempt over it surfaces the same `KeyLoadError`; a well-formed key
loads to its 32-byte seed and never raises. -/
theorem c8_key_load_error (der : List Nat) :
    (¬ wellFormedDerKey der →
      load_der_private_key der = Except.error AuthError.keyLoadError) ∧
    (wellFormedDerKey der →
      load_der_private_key der = Except.ok (der.drop 16) ∧ (der.drop 16).length = 32) ∧
    (∀ signRaw m, ¬ wellFormedDerKey der →
      signWithDerKey der signRaw m = Except.error AuthError.keyLoadError) := by
  refine ⟨?_, ?_, ?_⟩
  · intro h
    rw [load_der_private_key, if_neg h]
  · intro h
    rw [load_der_private_key, if_pos h]
    refine ⟨rfl, ?_⟩
    have h48 := h.1
    simp [List.length_drop, h48]
  · intro signRaw m h
    simp [signWithDerKey, load_der_private_key, h]

/-- Witness for claim C8 at the empty key (malformed) and at the source-shaped
48-byte DER key (well-formed). -/
theorem c8_key_load_error_witness :
    (¬ wellFormedDerKey [] ∧
      load_der_private_key [] = Except.error AuthError.keyLoadError) ∧
    (wellFormedDerKey (ed25519DerHeader ++ List.replicate 32 0) ∧
      load_der_private_key (ed25519DerHeader ++ List.replicate 32 0) =
        Except.ok ((ed25519DerHeader ++ List.replicate 32 0).drop 16) ∧
      ((ed25519DerHeader ++ List.replicate 32 0).drop 16).length = 32) :=
  ⟨⟨by decide, (c8_key_load_error []).1 (by decide)⟩,
   ⟨by decide, (c8_key_load_error (ed25519DerHeader ++ List.replicate 32 0)).2.1 (by decide)⟩⟩

/-- Claim C9: `decode_varint` is a left inverse of `encode_varint` — for every
nonnegative integer `v`, `decode_varint (encode_varint v) 0` returns the pair
`(v, (encode_varint v).length)`. -/
theorem c9_decode_varint_left_inverse (v : Nat) :
    decode_varint (encode_varint v) 0 = (v, (encode_varint v).length) := by
  have h := decodeVarintLoop_encode' v []
  rw [List.append_nil] at h
  rw [decode_varint, List.drop_zero, h]
  simp

/-- Claim C10: `wrapMessage` is injective — two distinct byte strings never
produce the same HIP-820-wrapped bytes (the decimal length digits contain no
newline byte, so the first newline after the fixed header delimits
unambiguously). -/
theorem c10_wrapMessage_injective (m1 m2 : List Nat)
    (h : build_hip820 m1 = build_hip820 m2) : m1 = m2 := by
  rw [build_hip820, build_hip820] at h
  have h2 : decDigits m1.length ++ (10 :: m1) = decDigits m2.length ++ (10 :: m2) :=
    List.append_cancel_left (by simpa [List.append_assoc] using h :
      hipHeader ++ (decDigits m1.length ++ (10 :: m1)) =
      hipHeader ++ (decDigits m2.length ++ (10 :: m2)))
  have hn1 : (10:Nat) ∉ decDigits m1.length := by
    intro hc
    have := decDigits_mem m1.length 10 hc
    omega
  have hn2 : (10:Nat) ∉ decDigits m2.length := by
    intro hc
    have := decDigits_mem m2.length 10 hc
    omega
  exact (append_sep_inj _ _ _ _ hn1 hn2 h2).2

/-- Witness for claim C10, applying it at the one-byte message `[1]`. -/
theorem c10_wrapMessage_injective_witness : ([1] : List Nat) = [1] :=
  c10_wrapMessage_injective [1] [1] rfl

end HipAuth
